import Mathlib

/-!
Verification of the room/message persistence core of the campfire-voice
chat service, shallowly embedded from the TypeScript source
(src/server/index.ts: ChatRoomRepository, MessageRepository, the express
request handlers, and the shared validation helpers).

The durable store is Redis.  The repositories keep
  - one hash per room holding the serialized ChatRoom record,
  - a hash of active room ids,
  - one hash per interest tag holding the ids of rooms carrying that tag,
  - one sorted set per room holding the JSON-serialized messages with
    the message timestamp as score.
The embedding represents this state explicitly (association lists for the
hashes, a list of messages for each sorted set) and passes the ambient
clock (Date.now()) and the random id suffix of generateId as explicit
parameters.  Serialization of a room record into hash fields followed by
the parse in getChatRoom is the identity on records, so room hashes hold
the structured record directly.
-/

set_option maxRecDepth 20000

namespace Campfire

/-- Lexicographic comparison of character lists by code point, the order
Redis uses on the byte representation of sorted-set members (all members
produced by the program are ASCII JSON, where byte order and code-point
order agree). -/
def charsLe : List Char → List Char → Bool
  | [], _ => true
  | _ :: _, [] => false
  | a :: as, b :: bs =>
    if a.toNat < b.toNat then true
    else if b.toNat < a.toNat then false
    else charsLe as bs

theorem charsLe_total : ∀ a b : List Char, charsLe a b = true ∨ charsLe b a = true := by
  intro a
  induction a with
  | nil => intro b; left; rfl
  | cons x xs ih =>
    intro b
    cases b with
    | nil => right; rfl
    | cons y ys =>
      by_cases hxy : x.toNat < y.toNat
      · left; simp [charsLe, hxy]
      · by_cases hyx : y.toNat < x.toNat
        · right; simp [charsLe, hyx]
        · have hx : ¬ x.toNat < y.toNat := hxy
          rcases ih ys with h | h
          · left; simp [charsLe, hx, hyx, h]
          · right; simp [charsLe, hx, hyx, h]

theorem charsLe_trans : ∀ a b c : List Char,
    charsLe a b = true → charsLe b c = true → charsLe a c = true := by
  intro a
  induction a with
  | nil => intro b c _ _; rfl
  | cons x xs ih =>
    intro b c hab hbc
    cases b with
    | nil => simp [charsLe] at hab
    | cons y ys =>
      cases c with
      | nil => simp [charsLe] at hbc
      | cons z zs =>
        simp only [charsLe] at hab hbc ⊢
        by_cases hxy : x.toNat < y.toNat
        · by_cases hzy : z.toNat < y.toNat
          · by_cases hyz : y.toNat < z.toNat
            · have : x.toNat < z.toNat := by omega
              simp [this]
            · simp [hyz, hzy] at hbc
          · have : x.toNat < z.toNat := by omega
            simp [this]
        · by_cases hyx : y.toNat < x.toNat
          · simp [hxy, hyx] at hab
          · by_cases hyz : y.toNat < z.toNat
            · have hxz : x.toNat < z.toNat := by omega
              simp [hxz]
            · by_cases hzy : z.toNat < y.toNat
              · simp [hyz, hzy] at hbc
              · have hxz : ¬ x.toNat < z.toNat := by omega
                have hzx : ¬ z.toNat < x.toNat := by omega
                simp only [if_neg hxy, if_neg hyx] at hab
                simp only [if_neg hyz, if_neg hzy] at hbc
                simp only [if_neg hxz, if_neg hzx]
                exact ih ys zs hab hbc

/-- Generic stable insertion into a list sorted by the boolean
relation le. -/
def insertLe (le : α → α → Bool) (x : α) : List α → List α
  | [] => [x]
  | y :: ys => if le x y then x :: y :: ys else y :: insertLe le x ys

/-- The list sorted (stably) by the boolean relation le.  This models
both the order Redis maintains inside a sorted set (score first, then
member bytes) and the result of JavaScript's stable Array.prototype.sort
with a numeric comparator. -/
def sortLe (le : α → α → Bool) : List α → List α
  | [] => []
  | x :: xs => insertLe le x (sortLe le xs)

theorem length_insertLe (le : α → α → Bool) (x : α) :
    ∀ l : List α, (insertLe le x l).length = l.length + 1 := by
  intro l
  induction l with
  | nil => rfl
  | cons y ys ih =>
    by_cases h : le x y = true
    · simp [insertLe, h]
    · simp [insertLe, h, ih]

theorem length_sortLe (le : α → α → Bool) :
    ∀ l : List α, (sortLe le l).length = l.length := by
  intro l
  induction l with
  | nil => rfl
  | cons x xs ih => simp [sortLe, length_insertLe, ih]

theorem perm_insertLe (le : α → α → Bool) (x : α) :
    ∀ l : List α, (insertLe le x l).Perm (x :: l) := by
  intro l
  induction l with
  | nil => exact List.Perm.refl _
  | cons y ys ih =>
    by_cases h : le x y = true
    · simp [insertLe, h]
    · simpa [insertLe, h] using ((ih.cons y).trans (List.Perm.swap x y ys))

theorem perm_sortLe (le : α → α → Bool) :
    ∀ l : List α, (sortLe le l).Perm l := by
  intro l
  induction l with
  | nil => exact List.Perm.refl _
  | cons x xs ih => exact (perm_insertLe le x (sortLe le xs)).trans (ih.cons x)

theorem pairwise_insertLe (le : α → α → Bool)
    (htot : ∀ a b, le a b = true ∨ le b a = true)
    (htrans : ∀ a b c, le a b = true → le b c = true → le a c = true) (x : α) :
    ∀ l : List α, l.Pairwise (fun a b => le a b = true) →
      (insertLe le x l).Pairwise (fun a b => le a b = true) := by
  intro l
  induction l with
  | nil => intro _; simp [insertLe]
  | cons y ys ih =>
    intro hp
    rcases List.pairwise_cons.mp hp with ⟨hy, hys⟩
    by_cases h : le x y = true
    · simp only [insertLe, if_pos h]
      refine List.pairwise_cons.mpr ⟨?_, hp⟩
      intro b hb
      rcases List.mem_cons.mp hb with rfl | hb
      · exact h
      · exact htrans x y b h (hy b hb)
    · simp only [insertLe, if_neg h]
      refine List.pairwise_cons.mpr ⟨?_, ih hys⟩
      intro b hb
      have hmem := (perm_insertLe le x ys).mem_iff.mp hb
      rcases List.mem_cons.mp hmem with rfl | hb2
      · rcases htot b y with h2 | h2
        · exact absurd h2 h
        · exact h2
      · exact hy b hb2

theorem pairwise_sortLe (le : α → α → Bool)
    (htot : ∀ a b, le a b = true ∨ le b a = true)
    (htrans : ∀ a b c, le a b = true → le b c = true → le a c = true) :
    ∀ l : List α, (sortLe le l).Pairwise (fun a b => le a b = true) := by
  intro l
  induction l with
  | nil => simp [sortLe]
  | cons x xs ih => exact pairwise_insertLe le htot htrans x (sortLe le xs) ih

/-- Association-list lookup, modelling a read of a Redis hash key. -/
def lookupA [DecidableEq κ] (k : κ) : List (κ × β) → Option β
  | [] => none
  | p :: ps => if p.1 = k then some p.2 else lookupA k ps

/-- Writing a value under a key, modelling hSet of a whole logical
record (replaces an existing entry, creates the key otherwise). -/
def setAssoc [DecidableEq κ] (k : κ) (v : β) (l : List (κ × β)) : List (κ × β) :=
  (l.filter (fun p => p.1 ≠ k)) ++ [(k, v)]

/-- Deleting a key, modelling the Redis del command. -/
def eraseA [DecidableEq κ] (k : κ) (l : List (κ × β)) : List (κ × β) :=
  l.filter (fun p => p.1 ≠ k)

theorem lookupA_filter_ne [DecidableEq κ] (k k0 : κ) (h : k ≠ k0) :
    ∀ l : List (κ × β), lookupA k (l.filter (fun p => p.1 ≠ k0)) = lookupA k l := by
  intro l
  induction l with
  | nil => rfl
  | cons p ps ih =>
    by_cases hp0 : p.1 = k0
    · have hk : p.1 ≠ k := fun hh => h (hh ▸ hp0)
      rw [List.filter_cons_of_neg (by simp [hp0])]
      rw [ih]
      simp [lookupA, hk]
    · rw [List.filter_cons_of_pos (by simp [hp0])]
      by_cases hp : p.1 = k
      · simp [lookupA, hp]
      · simp only [lookupA, if_neg hp]
        exact ih

theorem lookupA_append [DecidableEq κ] (k : κ) :
    ∀ l m : List (κ × β), lookupA k (l ++ m) =
      (match lookupA k l with | some v => some v | none => lookupA k m) := by
  intro l m
  induction l with
  | nil => rfl
  | cons p ps ih =>
    by_cases hp : p.1 = k
    · simp [lookupA, hp]
    · simp [lookupA, hp, ih]

theorem lookupA_setAssoc_self [DecidableEq κ] (k : κ) (v : β) (l : List (κ × β)) :
    lookupA k (setAssoc k v l) = some v := by
  unfold setAssoc
  rw [lookupA_append]
  have hnone : lookupA k (l.filter (fun p => p.1 ≠ k)) = none := by
    induction l with
    | nil => rfl
    | cons p ps ih =>
      by_cases hp : p.1 = k
      · rw [List.filter_cons_of_neg (by simp [hp])]
        exact ih
      · rw [List.filter_cons_of_pos (by simp [hp])]
        simp only [lookupA, if_neg hp]
        exact ih
  rw [hnone]
  simp [lookupA]

theorem lookupA_setAssoc_ne [DecidableEq κ] (k k0 : κ) (v : β) (l : List (κ × β))
    (h : k ≠ k0) : lookupA k (setAssoc k0 v l) = lookupA k l := by
  unfold setAssoc
  rw [lookupA_append, lookupA_filter_ne k k0 h]
  have hne : k0 ≠ k := fun hh => h hh.symm
  cases hl : lookupA k l with
  | some v0 => rfl
  | none => simp [lookupA, hne]

theorem mem_setAssoc [DecidableEq κ] (k : κ) (v : β) (l : List (κ × β)) (p : κ × β)
    (h : p ∈ setAssoc k v l) : p ∈ l ∨ p = (k, v) := by
  unfold setAssoc at h
  rcases List.mem_append.mp h with h | h
  · exact Or.inl (List.mem_of_mem_filter h)
  · exact Or.inr (List.mem_singleton.mp h)

theorem lookupA_mem [DecidableEq κ] (k : κ) (v : β) :
    ∀ l : List (κ × β), lookupA k l = some v → (k, v) ∈ l := by
  intro l
  induction l with
  | nil => intro h; exact absurd h (by simp [lookupA])
  | cons p ps ih =>
    intro h
    obtain ⟨pk, pv⟩ := p
    by_cases hp : pk = k
    · subst hp
      simp only [lookupA, if_pos rfl] at h
      cases h
      exact List.mem_cons_self _ _
    · simp only [lookupA, if_neg hp] at h
      exact List.mem_cons_of_mem _ (ih h)

/-! ## Data model (src/shared/types: ChatRoom, Message) -/

/-- A chat room record as stored in the per-room hash
(ChatRoomRepository serializes exactly these fields). -/
structure ChatRoom where
  id : String
  title : String
  topic : String
  creatorId : String
  creatorUsername : String
  participants : List String
  participantCount : Nat
  interests : List String
  isActive : Bool
  createdAt : Nat
  lastActivity : Nat
deriving DecidableEq

/-- A chat message as stored (JSON-serialized) in the per-room sorted set. -/
structure Message where
  id : String
  chatRoomId : String
  userId : String
  username : String
  content : String
  timestamp : Nat
deriving DecidableEq

/-- One hexadecimal digit, lowercase, as produced by JSON.stringify's
unicode escapes. -/
def hexDigit (n : Nat) : Char :=
  if n < 10 then Char.ofNat (48 + n) else Char.ofNat (87 + n)

/-- Escaping of a single character inside a JSON string literal,
following JSON.stringify. -/
def jsonEscapeChar (c : Char) : String :=
  if c = '"' then "\\\""
  else if c = '\\' then "\\\\"
  else if c = '\n' then "\\n"
  else if c = '\r' then "\\r"
  else if c = '\t' then "\\t"
  else if c.toNat = 8 then "\\b"
  else if c.toNat = 12 then "\\f"
  else if c.toNat < 32 then
    String.mk ['\\', 'u', '0', '0', hexDigit (c.toNat / 16), hexDigit (c.toNat % 16)]
  else String.singleton c

def jsonEscape (s : String) : String :=
  String.join (s.data.map jsonEscapeChar)

def jsonStr (s : String) : String := "\"" ++ jsonEscape s ++ "\""

/-- JSON.stringify(message): the sorted-set member string under which a
message is stored (field order follows the object literal in
MessageRepository.createMessage). -/
def serializeMessage (m : Message) : String :=
  "\x7b\"id\":" ++ jsonStr m.id ++
  ",\"chatRoomId\":" ++ jsonStr m.chatRoomId ++
  ",\"userId\":" ++ jsonStr m.userId ++
  ",\"username\":" ++ jsonStr m.username ++
  ",\"content\":" ++ jsonStr m.content ++
  ",\"timestamp\":" ++ toString m.timestamp ++ "\x7d"

/-- The order a Redis sorted set maintains on the message log: primary
key is the score (the message timestamp), ties are broken by the byte
order of the member strings, i.e. of the JSON serializations. -/
def leMsg (a b : Message) : Bool :=
  if a.timestamp < b.timestamp then true
  else if b.timestamp < a.timestamp then false
  else charsLe (serializeMessage a).data (serializeMessage b).data

theorem leMsg_total : ∀ a b : Message, leMsg a b = true ∨ leMsg b a = true := by
  intro a b
  unfold leMsg
  by_cases hab : a.timestamp < b.timestamp
  · left; simp [hab]
  · by_cases hba : b.timestamp < a.timestamp
    · right; simp [hba]
    · rcases charsLe_total (serializeMessage a).data (serializeMessage b).data with h | h
      · left; simp [hab, hba, h]
      · right; simp [hab, hba, h]

theorem leMsg_timestamp_le {a b : Message} (h : leMsg a b = true) :
    a.timestamp ≤ b.timestamp := by
  unfold leMsg at h
  by_cases hab : a.timestamp < b.timestamp
  · exact Nat.le_of_lt hab
  · by_cases hba : b.timestamp < a.timestamp
    · simp [hab, hba] at h
    · omega

/-! ## The durable store -/

/-- The portion of the Redis keyspace owned by the room and message
repositories: room hashes, the active_chatrooms hash, the per-interest
hashes, the per-room message sorted sets.  Hash key iteration order is
insertion order (Redis listpack-encoded hashes and the JS Object.keys
view both preserve it). -/
structure Store where
  rooms : List (String × ChatRoom)
  activeIndex : List String
  interestIndex : List (String × List String)
  messages : List (String × List Message)
deriving DecidableEq

def emptyStore : Store := ⟨[], [], [], []⟩

/-- The sorted-set entries of a room's message log (the key
chatroom:id:messages). -/
def msgLog (s : Store) (chatRoomId : String) : List Message :=
  (lookupA chatRoomId s.messages).getD []

/-- Adding a field to a hash used as a set of ids (hSet key {[id]: '1'}):
no-op when present, appended otherwise. -/
def addKey (id : String) (l : List String) : List String :=
  if l.contains id then l else l ++ [id]

/-! ## MessageRepository -/

/-- The retention ceiling APP_CONSTANTS.MESSAGE_HISTORY_LIMIT. -/
def MESSAGE_HISTORY_LIMIT : Nat := 100

/-- generateId from shared utils: Date.now() plus a random base-36
suffix; the clock value and the suffix are explicit parameters here. -/
def generateId (now : Nat) (suffix : String) : String :=
  toString now ++ "-" ++ suffix

/-- zAdd on a message log: distinct records serialize to distinct member
strings, so member identity coincides with record identity; an existing
member has its score updated (the score is determined by the member's
timestamp field, so this is replacement). -/
def zAdd (log : List Message) (m : Message) : List Message :=
  (log.filter (fun x => x ≠ m)) ++ [m]

/-- zRemRangeByRank key 0 (k-1): drop the k entries of lowest rank in
the sorted-set order. -/
def zRemLowest (log : List Message) (k : Nat) : List Message :=
  (sortLe leMsg log).drop k

/-- MessageRepository.createMessage: build the message from the ambient
clock and generated id, zAdd it with its timestamp as score, then if the
cardinality exceeds MESSAGE_HISTORY_LIMIT remove the excess of lowest
rank. -/
def createMessage (s : Store) (chatRoomId userId username content : String)
    (now : Nat) (suffix : String) : Store × Message :=
  let id := generateId now suffix
  let message : Message := ⟨id, chatRoomId, userId, username, content, now⟩
  let log1 := zAdd (msgLog s chatRoomId) message
  let messageCount := log1.length
  let log2 :=
    if MESSAGE_HISTORY_LIMIT < messageCount then
      zRemLowest log1 (messageCount - MESSAGE_HISTORY_LIMIT)
    else log1
  ({ s with messages := setAssoc chatRoomId log2 s.messages }, message)

/-- MessageRepository.getMessages: zRange by score over (-inf, before)
(upper bound exclusive when the cursor parses, +inf otherwise), reversed
to newest-first, limited to the first limit entries. -/
def getMessages (s : Store) (chatRoomId : String) (limit : Nat)
    (before : Option Nat) : List Message :=
  let entries : List Message := sortLe leMsg (msgLog s chatRoomId)
  let inRange : List Message :=
    match before with
    | some b => entries.filter (fun m => m.timestamp < b)
    | none => entries
  inRange.reverse.take limit

/-- MessageRepository.getMessagesAfter: zRangeByScore over (timestamp,
+inf), exclusive lower bound, ascending, unbounded. -/
def getMessagesAfter (s : Store) (chatRoomId : String) (timestamp : Nat) :
    List Message :=
  (sortLe leMsg (msgLog s chatRoomId)).filter (fun m => timestamp < m.timestamp)

/-! ## ChatRoomRepository -/

/-- Registering a room id under each of its interest tags (the hSet loop
in createChatRoom). -/
def addToIdx (idx : List (String × List String)) (roomId : String)
    (tags : List String) : List (String × List String) :=
  tags.foldl
    (fun ix tag => setAssoc tag (addKey roomId ((lookupA tag ix).getD [])) ix) idx

/-- Removing a room id from each of the given interest indexes (the hDel
loop in deactivateChatRoom). -/
def removeFromIdx (idx : List (String × List String)) (roomId : String)
    (tags : List String) : List (String × List String) :=
  tags.foldl
    (fun ix tag =>
      setAssoc tag (((lookupA tag ix).getD []).filter (fun k => k ≠ roomId)) ix) idx

/-- ChatRoomRepository.getChatRoom: read the room hash; an absent hash
has no id field and yields null. -/
def getChatRoom (s : Store) (id : String) : Option ChatRoom :=
  lookupA id s.rooms

/-- ChatRoomRepository.createChatRoom: write the room record with the
creator as sole participant, register it in the active-room hash and in
one interest hash per tag.  The generated id and Date.now() are explicit
parameters. -/
def createChatRoom (s : Store) (id : String) (now : Nat)
    (title topic creatorId creatorUsername : String) (interests : List String) :
    Store × ChatRoom :=
  let chatRoom : ChatRoom :=
    ⟨id, title, topic, creatorId, creatorUsername, [creatorId], 1, interests,
      true, now, now⟩
  ({ rooms := setAssoc id chatRoom s.rooms,
     activeIndex := addKey id s.activeIndex,
     interestIndex := addToIdx s.interestIndex id interests,
     messages := s.messages }, chatRoom)

/-- The comparator of getActiveChatRooms: lastActivity descending. -/
def actLe (a b : ChatRoom) : Bool :=
  decide (b.lastActivity ≤ a.lastActivity)

/-- ChatRoomRepository.getActiveChatRooms: load every id in the
active-room hash, keep the records that exist and are active, sort by
lastActivity descending (JavaScript's sort is stable, so sortLe models
it). -/
def getActiveChatRooms (s : Store) : List ChatRoom :=
  sortLe actLe
    ((s.activeIndex.filterMap (getChatRoom s)).filter (fun r => r.isActive))

/-- Number of the room's tags that occur in the queried interests
(a.interests.filter(i => interests.includes(i)).length). -/
def countMatches (interests : List String) (r : ChatRoom) : Nat :=
  (r.interests.filter (fun i => interests.contains i)).length

/-- The dual-key comparator of getChatRoomsByInterests: matched-tag
count descending, then lastActivity descending. -/
def relLe (interests : List String) (a b : ChatRoom) : Bool :=
  if countMatches interests b < countMatches interests a then true
  else if countMatches interests a < countMatches interests b then false
  else decide (b.lastActivity ≤ a.lastActivity)

/-- The deduplicated union of room ids over the queried interest
indexes, in first-occurrence order (the Set accumulation in
getChatRoomsByInterests). -/
def unionIds (s : Store) (interests : List String) : List String :=
  interests.foldl
    (fun acc tag =>
      ((lookupA tag s.interestIndex).getD []).foldl
        (fun ac id => if ac.contains id then ac else ac ++ [id]) acc) []

/-- ChatRoomRepository.getChatRoomsByInterests. -/
def getChatRoomsByInterests (s : Store) (interests : List String) : List ChatRoom :=
  if interests = [] then getActiveChatRooms s
  else
    sortLe (relLe interests)
      (((unionIds s interests).filterMap (getChatRoom s)).filter (fun r => r.isActive))

/-- ChatRoomRepository.joinChatRoom. -/
def joinChatRoom (s : Store) (chatRoomId userId : String) (now : Nat) :
    Store × Bool :=
  match getChatRoom s chatRoomId with
  | none => (s, false)
  | some chatRoom =>
    if !chatRoom.isActive then (s, false)
    else if chatRoom.participants.contains userId then (s, true)
    else
      let updatedParticipants := chatRoom.participants ++ [userId]
      let updatedRoom : ChatRoom :=
        { chatRoom with
          participants := updatedParticipants,
          participantCount := updatedParticipants.length,
          lastActivity := now }
      ({ s with rooms := setAssoc chatRoomId updatedRoom s.rooms }, true)

/-- ChatRoomRepository.deactivateChatRoom: mark the record inactive,
remove the id from the active hash and from the interest hashes of the
record's tags.  Participants and messages are not touched. -/
def deactivateChatRoom (s : Store) (chatRoomId : String) : Store :=
  match getChatRoom s chatRoomId with
  | none => s
  | some chatRoom =>
    { rooms := setAssoc chatRoomId ({ chatRoom with isActive := false }) s.rooms,
      activeIndex := s.activeIndex.filter (fun k => k ≠ chatRoomId),
      interestIndex := removeFromIdx s.interestIndex chatRoomId chatRoom.interests,
      messages := s.messages }

/-- ChatRoomRepository.leaveChatRoom: filter the user out of the
participant list; if the result is empty, deactivate and return without
writing the filtered list, otherwise persist participants, count and
lastActivity. -/
def leaveChatRoom (s : Store) (chatRoomId userId : String) (now : Nat) :
    Store × Bool :=
  match getChatRoom s chatRoomId with
  | none => (s, false)
  | some chatRoom =>
    let updatedParticipants := chatRoom.participants.filter (fun id => id ≠ userId)
    if updatedParticipants.isEmpty then (deactivateChatRoom s chatRoomId, true)
    else
      let updatedRoom : ChatRoom :=
        { chatRoom with
          participants := updatedParticipants,
          participantCount := updatedParticipants.length,
          lastActivity := now }
      ({ s with rooms := setAssoc chatRoomId updatedRoom s.rooms }, true)

/-- ChatRoomRepository.updateLastActivity.  hSet on an absent room key
would create a hash without an id field, which getChatRoom reads as
null, so observably the store is unchanged in that case. -/
def updateLastActivity (s : Store) (chatRoomId : String) (now : Nat) : Store :=
  match getChatRoom s chatRoomId with
  | none => s
  | some chatRoom =>
    { s with rooms := setAssoc chatRoomId ({ chatRoom with lastActivity := now }) s.rooms }

/-- ChatRoomRepository.deleteChatRoom: only the creator of an existing
room may delete; deactivate, then delete the room hash and the message
log. -/
def deleteChatRoom (s : Store) (chatRoomId userId : String) : Store × Bool :=
  match getChatRoom s chatRoomId with
  | none => (s, false)
  | some chatRoom =>
    if chatRoom.creatorId ≠ userId then (s, false)
    else
      let s1 := deactivateChatRoom s chatRoomId
      let s2 := { s1 with rooms := eraseA chatRoomId s1.rooms }
      let s3 := { s2 with messages := eraseA chatRoomId s2.messages }
      (s3, true)

/-! ## Shared validation and the request layer -/

/-- The ids of the static INTEREST_TAGS catalog (src/shared/constants). -/
def INTEREST_TAG_IDS : List String :=
  ["gaming", "technology", "music", "movies", "sports", "food", "travel",
   "books", "art", "science", "fitness", "photography"]

/-- The whitespace class String.prototype.trim removes (the ASCII white
space characters plus NBSP and the BOM). -/
def isJsWhitespace (c : Char) : Bool :=
  c == ' ' || c == '\t' || c == '\n' || c == '\r' ||
    c.toNat == 11 || c.toNat == 12 || c.toNat == 160 || c.toNat == 65279

/-- JavaScript's String.prototype.trim: strip leading and trailing
whitespace. -/
def strTrim (s : String) : String :=
  String.mk (((s.data.dropWhile isJsWhitespace).reverse.dropWhile isJsWhitespace).reverse)

/-- validateChatRoomTitle from src/shared utils (the version the server
imports): non-blank after trimming and at most 100 characters.  There is
no minimum length here. -/
def validateChatRoomTitle (title : String) : Bool :=
  if (strTrim title).length = 0 then false
  else if 100 < title.length then false
  else true

/-- validateChatRoomTopic from src/shared utils (the version the server
imports): non-blank after trimming and at most 200 characters.  There is
no minimum length here. -/
def validateChatRoomTopic (topic : String) : Bool :=
  if (strTrim topic).length = 0 then false
  else if 200 < topic.length then false
  else true

/-- The interest validation of POST /api/chatrooms: the body field must
be an array (none models a missing or non-array field) and every element
must be a known tag id.  The handler imposes no bound on how many
interests are supplied, including zero. -/
def validInterestsField (interests : Option (List String)) : Bool :=
  match interests with
  | none => false
  | some l => (l.filter (fun i => !INTEREST_TAG_IDS.contains i)).isEmpty

/-- POST /api/chatrooms, after authentication: run the shared title and
topic validators and the interest checks, answering 400 without touching
the store on failure, otherwise create the room (with trimmed title and
topic) and answer 201.  The user-repository cache write and the realtime
notification touch no room or message state and are omitted. -/
def createRoomEndpoint (s : Store) (genId : String) (now : Nat)
    (userId username : String) (title topic : String)
    (interests : Option (List String)) : Store × Nat :=
  if !validateChatRoomTitle title then (s, 400)
  else if !validateChatRoomTopic topic then (s, 400)
  else
    match interests with
    | none => (s, 400)
    | some ints =>
      if !(ints.filter (fun i => !INTEREST_TAG_IDS.contains i)).isEmpty then (s, 400)
      else
        ((createChatRoom s genId now (strTrim title) (strTrim topic) userId username ints).1,
         201)

/-- The page-size normalization of GET /api/chatrooms/:id/messages:
Math.min(Number(limit) || 50, 100).  none models an absent or
non-numeric limit parameter, and Number(..) || 50 turns 0 into 50. -/
def normalizedLimit (limit : Option Nat) : Nat :=
  min (match limit with
       | none => 50
       | some n => if n = 0 then 50 else n) 100

/-- GET /api/chatrooms/:id/messages for a caller that passed the
authentication and membership guards (those guards do not change which
page is returned). -/
def getMessagesEndpoint (s : Store) (chatRoomId : String)
    (limit : Option Nat) (before : Option Nat) : List Message :=
  getMessages s chatRoomId (normalizedLimit limit) before

/-- DELETE /api/chatrooms/:id, after authentication: a false result from
the repository is answered with 403, success with 200. -/
def deleteRoomEndpoint (s : Store) (chatRoomId userId : String) : Store × Nat :=
  let result := deleteChatRoom s chatRoomId userId
  if result.2 then (result.1, 200) else (result.1, 403)

/-! ## Support lemmas about the operations -/

theorem leMsg_trans : ∀ a b c : Message,
    leMsg a b = true → leMsg b c = true → leMsg a c = true := by
  intro a b c hab hbc
  unfold leMsg at hab hbc ⊢
  by_cases hab1 : a.timestamp < b.timestamp
  · by_cases hbc1 : b.timestamp < c.timestamp
    · have : a.timestamp < c.timestamp := by omega
      simp [this]
    · by_cases hbc2 : c.timestamp < b.timestamp
      · simp [hbc1, hbc2] at hbc
      · have : a.timestamp < c.timestamp := by omega
        simp [this]
  · by_cases hab2 : b.timestamp < a.timestamp
    · simp [hab1, hab2] at hab
    · by_cases hbc1 : b.timestamp < c.timestamp
      · have : a.timestamp < c.timestamp := by omega
        simp [this]
      · by_cases hbc2 : c.timestamp < b.timestamp
        · simp [hbc1, hbc2] at hbc
        · have hac1 : ¬ a.timestamp < c.timestamp := by omega
          have hac2 : ¬ c.timestamp < a.timestamp := by omega
          simp only [if_neg hab1, if_neg hab2] at hab
          simp only [if_neg hbc1, if_neg hbc2] at hbc
          simp only [if_neg hac1, if_neg hac2]
          exact charsLe_trans _ _ _ hab hbc

/-- The state of the message log immediately after createMessage. -/
theorem msgLog_createMessage (s : Store) (r u un c : String) (now : Nat) (suf : String) :
    msgLog ((createMessage s r u un c now suf).1) r =
      (let message : Message := ⟨generateId now suf, r, u, un, c, now⟩
       let log1 := zAdd (msgLog s r) message
       if MESSAGE_HISTORY_LIMIT < log1.length then
         zRemLowest log1 (log1.length - MESSAGE_HISTORY_LIMIT)
       else log1) := by
  unfold createMessage
  simp only [msgLog, lookupA_setAssoc_self, Option.getD_some]

/-! ## Claim C1 -/

/-- The 105-insert scenario of the retention claim: 105 messages sent to
one room of a fresh store, at strictly increasing timestamps. -/
def run105Store : Store :=
  (List.range 105).foldl
    (fun st i =>
      (createMessage st "room1" "user1" "alice" ("m" ++ toString i) (1000 + i) "s").1)
    emptyStore

/-- The message the i-th insert of the scenario produces. -/
def scenarioMsg (i : Nat) : Message :=
  ⟨generateId (1000 + i) "s", "room1", "user1", "alice", "m" ++ toString i, 1000 + i⟩

/-- Claim C1: after every call to createMessage the per-room message log
contains at most 100 messages (the excess of lowest rank is removed in
the same operation), and inserting 105 messages into an initially empty
room leaves exactly the 100 most recent messages, the 5 oldest having
been evicted. -/
theorem claim_retention_cap :
    (∀ s chatRoomId userId username content now suffix,
      (msgLog ((createMessage s chatRoomId userId username content now suffix).1)
          chatRoomId).length ≤ 100)
    ∧ getMessagesAfter run105Store "room1" 0 = ((List.range 105).drop 5).map scenarioMsg
    ∧ (msgLog run105Store "room1").length = 100 := by
  refine ⟨?_, by decide, by decide⟩
  intro s r u un c now suf
  rw [msgLog_createMessage]
  simp only [MESSAGE_HISTORY_LIMIT]
  by_cases h : 100 < (zAdd (msgLog s r) ⟨generateId now suf, r, u, un, c, now⟩).length
  · rw [if_pos h]
    unfold zRemLowest
    rw [List.length_drop, length_sortLe]
    omega
  · rw [if_neg h]
    omega

/-! ## Claim C7 -/

/-- Two sends that land in the same millisecond (timestamp 5000), the
first with random id suffix zzz, the second with suffix aaa. -/
def c7store : Store :=
  let s1 := (createMessage emptyStore "room1" "u1" "alice" "first" 5000 "zzz").1
  (createMessage s1 "room1" "u2" "bob" "second" 5000 "aaa").1

def c7first : Message := ⟨"5000-zzz", "room1", "u1", "alice", "first", 5000⟩

def c7second : Message := ⟨"5000-aaa", "room1", "u2", "bob", "second", 5000⟩

/-- Claim C7 counterexample: two messages sharing a timestamp come back
in the byte order of their serialized members (here the second-inserted
message, whose id 5000-aaa sorts below 5000-zzz, is returned first), not
in insertion order as the claim states. -/
theorem claim_tiebreak_counterexample :
    getMessagesAfter c7store "room1" 0 = [c7second, c7first]
    ∧ getMessagesAfter c7store "room1" 0 ≠ [c7first, c7second] := by
  constructor
  · decide
  · decide

/-- Claim C7 (amended): messages read back from a room log are ordered
by timestamp, and two messages sharing a timestamp are ordered by the
lexicographic byte order of their JSON-serialized forms (equivalently,
of their ids), not by insertion order. -/
theorem claim_log_order_by_timestamp_then_member :
    ∀ s chatRoomId t,
      (getMessagesAfter s chatRoomId t).Pairwise
        (fun a b => a.timestamp < b.timestamp ∨
          (a.timestamp = b.timestamp ∧
            charsLe (serializeMessage a).data (serializeMessage b).data = true)) := by
  intro s chatRoomId t
  have hp : (sortLe leMsg (msgLog s chatRoomId)).Pairwise (fun a b => leMsg a b = true) :=
    pairwise_sortLe leMsg leMsg_total leMsg_trans _
  refine (hp.filter _).imp ?_
  intro a b h
  unfold leMsg at h
  by_cases h1 : a.timestamp < b.timestamp
  · exact Or.inl h1
  · by_cases h2 : b.timestamp < a.timestamp
    · simp [h1, h2] at h
    · have : a.timestamp = b.timestamp := by omega
      simp only [if_neg h1, if_neg h2] at h
      exact Or.inr ⟨this, h⟩

/-! ## Claim C10 -/

/-- Claim C10: deleteChatRoom answers false both for an absent room and
for a requester who is not the creator, the request layer maps both to
403, and the store is unmodified in either failure case. -/
theorem claim_delete_failure_uniform :
    (∀ s chatRoomId userId, getChatRoom s chatRoomId = none →
        deleteChatRoom s chatRoomId userId = (s, false)
        ∧ deleteRoomEndpoint s chatRoomId userId = (s, 403))
    ∧ (∀ s chatRoomId userId room, getChatRoom s chatRoomId = some room →
        room.creatorId ≠ userId →
        deleteChatRoom s chatRoomId userId = (s, false)
        ∧ deleteRoomEndpoint s chatRoomId userId = (s, 403)) := by
  constructor
  · intro s chatRoomId userId h
    have hd : deleteChatRoom s chatRoomId userId = (s, false) := by
      unfold deleteChatRoom
      rw [h]
    refine ⟨hd, ?_⟩
    unfold deleteRoomEndpoint
    rw [hd]
    rfl
  · intro s chatRoomId userId room h hc
    have hd : deleteChatRoom s chatRoomId userId = (s, false) := by
      unfold deleteChatRoom
      rw [h]
      simp [hc]
    refine ⟨hd, ?_⟩
    unfold deleteRoomEndpoint
    rw [hd]
    rfl

/-- A store holding one room created by u1. -/
def demoStore : Store :=
  (createChatRoom emptyStore "roomA" 100 "Alpha" "alpha topic" "u1" "alice" ["gaming"]).1

/-- The record of the room in demoStore. -/
def demoRoom : ChatRoom :=
  ⟨"roomA", "Alpha", "alpha topic", "u1", "alice", ["u1"], 1, ["gaming"], true, 100, 100⟩

theorem claim_delete_failure_uniform_witness :
    deleteRoomEndpoint demoStore "missing" "u1" = (demoStore, 403)
    ∧ deleteRoomEndpoint demoStore "roomA" "u2" = (demoStore, 403) :=
  ⟨(claim_delete_failure_uniform.1 demoStore "missing" "u1" (by decide)).2,
   (claim_delete_failure_uniform.2 demoStore "roomA" "u2" demoRoom (by decide) (by decide)).2⟩

/-! ## Claim C9 -/

/-- Claim C9: leaving an existing room is not conditioned on membership.
For a user who is not a participant (the list being non-empty, and the
stored count consistent with it), leaveChatRoom reports success and
rewrites the record with the participant list and count unchanged and
lastActivity set to the current clock. -/
theorem claim_leave_nonmember :
    ∀ s chatRoomId userId now room,
      getChatRoom s chatRoomId = some room →
      userId ∉ room.participants →
      room.participants ≠ [] →
      room.participantCount = room.participants.length →
      (leaveChatRoom s chatRoomId userId now).2 = true
      ∧ getChatRoom ((leaveChatRoom s chatRoomId userId now).1) chatRoomId
          = some ({ room with lastActivity := now }) := by
  intro s chatRoomId userId now room hroom hu hne hcount
  have hfilter : room.participants.filter (fun x => x ≠ userId) = room.participants := by
    refine List.filter_eq_self.mpr ?_
    intro a ha
    simp only [ne_eq, decide_eq_true_eq]
    exact fun he => hu (he ▸ ha)
  have hempty : (room.participants.filter (fun x => x ≠ userId)).isEmpty = false := by
    rw [hfilter]
    cases hp : room.participants with
    | nil => exact absurd hp hne
    | cons a l => rfl
  have hrec : ({ room with
      participants := room.participants.filter (fun x => x ≠ userId),
      participantCount := (room.participants.filter (fun x => x ≠ userId)).length,
      lastActivity := now } : ChatRoom) = { room with lastActivity := now } := by
    cases room
    simp_all
  unfold leaveChatRoom
  rw [hroom]
  simp only [hempty, Bool.false_eq_true, if_false, hrec]
  exact ⟨trivial, by simp [getChatRoom, lookupA_setAssoc_self]⟩

theorem claim_leave_nonmember_witness :
    (leaveChatRoom demoStore "roomA" "stranger" 200).2 = true
    ∧ getChatRoom ((leaveChatRoom demoStore "roomA" "stranger" 200).1) "roomA"
        = some ({ demoRoom with lastActivity := 200 }) :=
  claim_leave_nonmember demoStore "roomA" "stranger" 200 demoRoom
    (by decide) (by decide) (by decide) (by decide)

/-! ## Claim C4 -/

/-- The invariant of claim C4: every stored room record carries a
participantCount equal to the length of its participant list. -/
def roomsConsistent (s : Store) : Prop :=
  ∀ p ∈ s.rooms, (p.2).participantCount = (p.2).participants.length

/-- Claim C4: the derived participantCount field stays equal to the
length of the stored participants list across createChatRoom,
joinChatRoom and leaveChatRoom. -/
theorem claim_participant_count_invariant :
    (∀ s id now title topic creatorId creatorUsername interests,
        roomsConsistent s →
        roomsConsistent ((createChatRoom s id now title topic creatorId
          creatorUsername interests).1))
    ∧ (∀ s chatRoomId userId now, roomsConsistent s →
        roomsConsistent ((joinChatRoom s chatRoomId userId now).1))
    ∧ (∀ s chatRoomId userId now, roomsConsistent s →
        roomsConsistent ((leaveChatRoom s chatRoomId userId now).1)) := by
  refine ⟨?_, ?_, ?_⟩
  · intro s id now title topic creatorId creatorUsername interests hs p hp
    rcases mem_setAssoc _ _ _ _ hp with h | h
    · exact hs p h
    · subst h; rfl
  · intro s chatRoomId userId now hs
    unfold joinChatRoom
    cases hg : getChatRoom s chatRoomId with
    | none => exact hs
    | some room =>
      by_cases hact : room.isActive
      · by_cases hmem : room.participants.contains userId
        · simp only [hact, hmem, Bool.not_true, Bool.false_eq_true, if_false, if_pos]
          exact hs
        · simp only [hact, hmem, Bool.not_true, Bool.false_eq_true, if_false]
          intro p hp
          rcases mem_setAssoc _ _ _ _ hp with h | h
          · exact hs p h
          · subst h; rfl
      · simp only [hact, Bool.not_false, if_true]
        exact hs
  · intro s chatRoomId userId now hs
    unfold leaveChatRoom
    cases hg : getChatRoom s chatRoomId with
    | none => exact hs
    | some room =>
      by_cases hemp : (room.participants.filter (fun id => id ≠ userId)).isEmpty
      · simp only [hemp, if_true]
        unfold deactivateChatRoom
        rw [hg]
        intro p hp
        rcases mem_setAssoc _ _ _ _ hp with h | h
        · exact hs p h
        · subst h
          exact hs (chatRoomId, room) (lookupA_mem _ _ _ hg)
      · simp only [hemp, Bool.false_eq_true, if_false]
        intro p hp
        rcases mem_setAssoc _ _ _ _ hp with h | h
        · exact hs p h
        · subst h; rfl

theorem claim_participant_count_invariant_witness :
    roomsConsistent demoStore
    ∧ roomsConsistent ((joinChatRoom demoStore "roomA" "u2" 300).1) :=
  ⟨by unfold roomsConsistent; decide,
   claim_participant_count_invariant.2.1 demoStore "roomA" "u2" 300
     (by unfold roomsConsistent; decide)⟩

/-! ## Claim C6 -/

/-- Claim C6 counterexample: when the sole participant u1 leaves, the
operation succeeds but the stored participants list still contains u1,
because the empty-branch of leaveChatRoom deactivates without writing
the filtered list. -/
theorem claim_leave_removes_user_counterexample :
    (leaveChatRoom demoStore "roomA" "u1" 200).2 = true
    ∧ (getChatRoom ((leaveChatRoom demoStore "roomA" "u1" 200).1) "roomA").map
        ChatRoom.participants = some ["u1"] := by
  constructor
  · decide
  · decide

/-- Claim C6 (amended): after a successful leaveChatRoom, if at least
one other participant remains then the user is removed from the stored
list; but when the filtered list is empty (the user was the last
remaining participant, or the list only held that user), the room is
deactivated and the stored participants list is left unchanged, so it
may still contain the leaver. -/
theorem claim_leave_removes_user_amended :
    ∀ s chatRoomId userId now room,
      getChatRoom s chatRoomId = some room →
      (leaveChatRoom s chatRoomId userId now).2 = true
      ∧ ((room.participants.filter (fun x => x ≠ userId)).isEmpty = false →
          getChatRoom ((leaveChatRoom s chatRoomId userId now).1) chatRoomId
            = some ({ room with
                participants := room.participants.filter (fun x => x ≠ userId),
                participantCount := (room.participants.filter (fun x => x ≠ userId)).length,
                lastActivity := now })
          ∧ userId ∉ room.participants.filter (fun x => x ≠ userId))
      ∧ ((room.participants.filter (fun x => x ≠ userId)).isEmpty = true →
          getChatRoom ((leaveChatRoom s chatRoomId userId now).1) chatRoomId
            = some ({ room with isActive := false })) := by
  intro s chatRoomId userId now room hroom
  refine ⟨?_, ?_, ?_⟩
  · unfold leaveChatRoom
    rw [hroom]
    by_cases hemp : (room.participants.filter (fun x => x ≠ userId)).isEmpty = true
    · simp only [hemp, if_true]
    · simp only [Bool.not_eq_true] at hemp
      simp only [hemp, Bool.false_eq_true, if_false]
  · intro hemp
    constructor
    · unfold leaveChatRoom
      rw [hroom]
      simp only [hemp, Bool.false_eq_true, if_false]
      simp [getChatRoom, lookupA_setAssoc_self]
    · intro hmem
      have := List.of_mem_filter hmem
      simp at this
  · intro hemp
    unfold leaveChatRoom
    rw [hroom]
    simp only [hemp, if_true]
    unfold deactivateChatRoom
    rw [hroom]
    simp [getChatRoom, lookupA_setAssoc_self]

theorem claim_leave_removes_user_amended_witness :
    (leaveChatRoom demoStore "roomA" "u1" 200).2 = true
    ∧ getChatRoom ((leaveChatRoom demoStore "roomA" "u1" 200).1) "roomA"
        = some ({ demoRoom with isActive := false }) := by
  have h := claim_leave_removes_user_amended demoStore "roomA" "u1" 200 demoRoom (by decide)
  exact ⟨h.1, h.2.2 (by decide)⟩

/-! ## Claim C8 -/

/-- The acceptance condition POST /api/chatrooms actually enforces:
shared title and topic validation (non-blank, maximum length only), an
array-valued interests field, and only catalog tag ids in it. -/
def createRoomAccepted (title topic : String) (interests : Option (List String)) : Bool :=
  validateChatRoomTitle title && validateChatRoomTopic topic &&
    (match interests with
     | none => false
     | some l => (l.filter (fun i => !INTEREST_TAG_IDS.contains i)).isEmpty)

/-- Claim C8 counterexample: a create-room request with a 2-character
title (and likewise one with an empty interest list) is accepted with
201 and creates a room, where the claim requires a 400 rejection. -/
theorem claim_create_validation_counterexample :
    (createRoomEndpoint emptyStore "r1" 100 "u1" "alice" "ab" "a topic about things"
        (some ["gaming"])).2 = 201
    ∧ (createRoomEndpoint emptyStore "r1" 100 "u1" "alice" "ab" "a topic about things"
        (some ["gaming"])).1.rooms ≠ []
    ∧ (createRoomEndpoint emptyStore "r1" 100 "u1" "alice" "Book Club"
        "a topic about things" (some [])).2 = 201 := by
  refine ⟨by decide, by decide, by decide⟩

/-- Claim C8 (amended): the create-room request is rejected with 400
exactly when the title is blank or longer than 100 characters, the
topic is blank or longer than 200 characters, the interests field is
missing or not an array, or some supplied interest id is not in the
catalog; rejection leaves the store unchanged, and any other request
creates the room (trimmed title and topic) and answers 201.  No minimum
title or topic length and no bound on the number of interests (not even
one) is enforced. -/
theorem claim_create_validation_amended :
    ∀ s genId now userId username title topic interests,
      (createRoomAccepted title topic interests = false →
        createRoomEndpoint s genId now userId username title topic interests = (s, 400))
      ∧ (∀ ints, interests = some ints →
          createRoomAccepted title topic interests = true →
          createRoomEndpoint s genId now userId username title topic interests
            = ((createChatRoom s genId now (strTrim title) (strTrim topic) userId username
                ints).1, 201)) := by
  intro s genId now userId username title topic interests
  constructor
  · intro hrej
    unfold createRoomEndpoint
    unfold createRoomAccepted at hrej
    by_cases ht : validateChatRoomTitle title
    · by_cases htp : validateChatRoomTopic topic
      · cases interests with
        | none => simp [ht, htp]
        | some ints =>
          simp only [ht, htp, Bool.and_true, Bool.true_and] at hrej
          simp only [ht, htp, Bool.not_true, Bool.false_eq_true, if_false, hrej,
            Bool.not_false, if_true]
      · simp [ht, htp]
    · simp [ht]
  · intro ints hi hacc
    subst hi
    unfold createRoomAccepted at hacc
    simp only [Bool.and_eq_true] at hacc
    obtain ⟨⟨ht, htp⟩, hints⟩ := hacc
    unfold createRoomEndpoint
    simp only [ht, htp, Bool.not_true, Bool.false_eq_true, if_false, hints,
      Bool.not_false, if_true]

theorem claim_create_validation_amended_witness :
    createRoomEndpoint demoStore "r2" 150 "u1" "alice" "" "a topic about things"
        (some ["gaming"]) = (demoStore, 400)
    ∧ createRoomEndpoint demoStore "r2" 150 "u1" "alice" "Book Club" "valid topic here"
        (some ["gaming"])
      = ((createChatRoom demoStore "r2" 150 "Book Club" "valid topic here" "u1" "alice"
          ["gaming"]).1, 201) := by
  have h := claim_create_validation_amended demoStore "r2" 150 "u1" "alice"
  refine ⟨(h "" "a topic about things" (some ["gaming"])).1 (by decide), ?_⟩
  have h2 := (h "Book Club" "valid topic here" (some ["gaming"])).2 ["gaming"] rfl (by decide)
  simpa using h2

/-! ## Claim C3 -/

theorem mem_setAssoc_cases [DecidableEq κ] (k : κ) (v : β) (l : List (κ × β))
    (p : κ × β) (h : p ∈ setAssoc k v l) : (p ∈ l ∧ p.1 ≠ k) ∨ p = (k, v) := by
  unfold setAssoc at h
  rcases List.mem_append.mp h with h | h
  · have hm := List.mem_filter.mp h
    exact Or.inl ⟨hm.1, by simpa using hm.2⟩
  · exact Or.inr (List.mem_singleton.mp h)

/-- After the hDel loop of deactivateChatRoom, no interest index entry
contains the room id any more, provided the id only occurred under the
looped tags beforehand. -/
theorem removeFromIdx_no_id (roomId : String) :
    ∀ (tags : List String) (idx : List (String × List String)),
      (∀ q ∈ idx, roomId ∈ q.2 → q.1 ∈ tags) →
      ∀ p ∈ removeFromIdx idx roomId tags, roomId ∉ p.2 := by
  intro tags
  induction tags with
  | nil =>
    intro idx h p hp hmem
    exact absurd (h p hp hmem) (List.not_mem_nil _)
  | cons t ts ih =>
    intro idx h p hp
    have hstep : removeFromIdx idx roomId (t :: ts) =
        removeFromIdx
          (setAssoc t (((lookupA t idx).getD []).filter (fun k => k ≠ roomId)) idx)
          roomId ts := rfl
    rw [hstep] at hp
    refine ih _ ?_ p hp
    intro q hq hqmem
    rcases mem_setAssoc_cases _ _ _ _ hq with ⟨hq2, hkey⟩ | rfl
    · rcases List.mem_cons.mp (h q hq2 hqmem) with heq | hin
      · exact absurd heq hkey
      · exact hin
    · exfalso
      have := List.of_mem_filter hqmem
      simp at this

/-- Claim C3: when the sole remaining participant leaves, the room is
auto-deactivated: success is reported, getChatRoom still answers the
record with isActive set to false, the id is gone from the active-room
index and from every interest index, getActiveChatRooms no longer lists
the room, and the message log is untouched. -/
theorem claim_leave_last_deactivates :
    ∀ s chatRoomId userId now room,
      getChatRoom s chatRoomId = some room →
      room.participants = [userId] →
      (∀ p ∈ s.rooms, (p.2).id = p.1) →
      (∀ p ∈ s.interestIndex, chatRoomId ∈ p.2 → p.1 ∈ room.interests) →
      (leaveChatRoom s chatRoomId userId now).2 = true
      ∧ getChatRoom ((leaveChatRoom s chatRoomId userId now).1) chatRoomId
          = some ({ room with isActive := false })
      ∧ chatRoomId ∉ ((leaveChatRoom s chatRoomId userId now).1).activeIndex
      ∧ (∀ p ∈ ((leaveChatRoom s chatRoomId userId now).1).interestIndex,
          chatRoomId ∉ p.2)
      ∧ (∀ r ∈ getActiveChatRooms ((leaveChatRoom s chatRoomId userId now).1),
          r.id ≠ chatRoomId)
      ∧ msgLog ((leaveChatRoom s chatRoomId userId now).1) chatRoomId
          = msgLog s chatRoomId := by
  intro s chatRoomId userId now room hroom hpart hwf hidx
  have hfilter : room.participants.filter (fun x => x ≠ userId) = [] := by
    rw [hpart]; simp
  have hleave : leaveChatRoom s chatRoomId userId now
      = (deactivateChatRoom s chatRoomId, true) := by
    unfold leaveChatRoom
    rw [hroom]
    simp only [hfilter, List.isEmpty_nil, if_true]
  have hdeact : deactivateChatRoom s chatRoomId =
      { rooms := setAssoc chatRoomId ({ room with isActive := false }) s.rooms,
        activeIndex := s.activeIndex.filter (fun k => k ≠ chatRoomId),
        interestIndex := removeFromIdx s.interestIndex chatRoomId room.interests,
        messages := s.messages } := by
    unfold deactivateChatRoom
    rw [hroom]
  have hroomid : room.id = chatRoomId :=
    hwf (chatRoomId, room) (lookupA_mem _ _ _ hroom)
  have hwf2 : ∀ p ∈ ((leaveChatRoom s chatRoomId userId now).1).rooms, (p.2).id = p.1 := by
    rw [hleave, hdeact]
    intro p hp
    rcases mem_setAssoc _ _ _ _ hp with h | h
    · exact hwf p h
    · subst h; exact hroomid
  refine ⟨by rw [hleave], ?_, ?_, ?_, ?_, ?_⟩
  · rw [hleave, hdeact]
    simp [getChatRoom, lookupA_setAssoc_self]
  · rw [hleave, hdeact]
    intro hmem
    have := List.mem_filter.mp hmem
    simp at this
  · rw [hleave, hdeact]
    intro p hp
    exact removeFromIdx_no_id chatRoomId room.interests s.interestIndex hidx p hp
  · intro r hr
    unfold getActiveChatRooms at hr
    have hr2 := (perm_sortLe actLe _).mem_iff.mp hr
    have hr3 := List.mem_filter.mp hr2
    rcases List.mem_filterMap.mp hr3.1 with ⟨a, ha, hget⟩
    have hid : r.id = a := hwf2 (a, r) (lookupA_mem _ _ _ hget)
    have hane : a ≠ chatRoomId := by
      rw [hleave, hdeact] at ha
      have := List.mem_filter.mp ha
      simpa using this.2
    rw [hid]
    exact hane
  · rw [hleave, hdeact]
    rfl

theorem claim_leave_last_deactivates_witness :
    (leaveChatRoom demoStore "roomA" "u1" 500).2 = true
    ∧ getChatRoom ((leaveChatRoom demoStore "roomA" "u1" 500).1) "roomA"
        = some ({ demoRoom with isActive := false })
    ∧ "roomA" ∉ ((leaveChatRoom demoStore "roomA" "u1" 500).1).activeIndex := by
  have h := claim_leave_last_deactivates demoStore "roomA" "u1" 500 demoRoom
    (by decide) (by decide) (by decide) (by decide)
  exact ⟨h.1, h.2.1, h.2.2.1⟩

/-! ## Claim C5 -/

theorem relLe_total (q : List String) :
    ∀ a b : ChatRoom, relLe q a b = true ∨ relLe q b a = true := by
  intro a b
  unfold relLe
  by_cases h1 : countMatches q b < countMatches q a
  · left; simp [h1]
  · by_cases h2 : countMatches q a < countMatches q b
    · right; simp [h1, h2]
    · rcases Nat.le_total b.lastActivity a.lastActivity with h | h
      · left; simp [h1, h2, h]
      · right
        have h3 : ¬ countMatches q a < countMatches q b := h2
        have h4 : ¬ countMatches q b < countMatches q a := h1
        simp [h3, h4, h]

theorem relLe_trans (q : List String) :
    ∀ a b c : ChatRoom, relLe q a b = true → relLe q b c = true →
      relLe q a c = true := by
  intro a b c hab hbc
  unfold relLe at hab hbc ⊢
  by_cases hab1 : countMatches q b < countMatches q a
  · by_cases hbc1 : countMatches q c < countMatches q b
    · have : countMatches q c < countMatches q a := by omega
      simp [this]
    · by_cases hbc2 : countMatches q b < countMatches q c
      · simp [hbc1, hbc2] at hbc
      · have : countMatches q c < countMatches q a := by omega
        simp [this]
  · by_cases hab2 : countMatches q a < countMatches q b
    · simp [hab1, hab2] at hab
    · by_cases hbc1 : countMatches q c < countMatches q b
      · have : countMatches q c < countMatches q a := by omega
        simp [this]
      · by_cases hbc2 : countMatches q b < countMatches q c
        · simp [hbc1, hbc2] at hbc
        · have hac1 : ¬ countMatches q c < countMatches q a := by omega
          have hac2 : ¬ countMatches q a < countMatches q c := by omega
          simp only [if_neg hab1, if_neg hab2, decide_eq_true_eq] at hab
          simp only [if_neg hbc1, if_neg hbc2, decide_eq_true_eq] at hbc
          simp only [if_neg hac1, if_neg hac2, decide_eq_true_eq]
          omega

theorem nodup_dedupFold :
    ∀ (xs acc : List String), acc.Nodup →
      (xs.foldl (fun ac id => if ac.contains id then ac else ac ++ [id]) acc).Nodup := by
  intro xs
  induction xs with
  | nil => intro acc h; exact h
  | cons x rest ih =>
    intro acc hacc
    simp only [List.foldl_cons]
    by_cases hc : acc.contains x = true
    · rw [if_pos hc]
      exact ih acc hacc
    · rw [if_neg hc]
      have hx : x ∉ acc := fun hmem => hc (List.elem_eq_true_of_mem hmem)
      refine ih (acc ++ [x]) ?_
      simp [List.nodup_append, hacc, hx]

theorem nodup_unionIds (s : Store) (q : List String) : (unionIds s q).Nodup := by
  unfold unionIds
  have h : ∀ (tags : List String) (acc : List String), acc.Nodup →
      (tags.foldl
        (fun acc tag =>
          ((lookupA tag s.interestIndex).getD []).foldl
            (fun ac id => if ac.contains id then ac else ac ++ [id]) acc) acc).Nodup := by
    intro tags
    induction tags with
    | nil => intro acc hacc; exact hacc
    | cons t ts ih =>
      intro acc hacc
      exact ih _ (nodup_dedupFold _ acc hacc)
  exact h q [] (by simp)

/-- Two rooms sharing lastActivity 100: A tagged gaming and music,
B tagged gaming only. -/
def c5store : Store :=
  let s1 := (createChatRoom emptyStore "roomA" 100 "Alpha" "alpha topic" "u1" "alice"
    ["gaming", "music"]).1
  (createChatRoom s1 "roomB" 100 "Beta" "beta topic" "u2" "bob" ["gaming"]).1

/-- Claim C5: getChatRoomsByInterests returns the deduplicated union of
the queried tag indexes filtered to active rooms, sorted primarily by
descending matched-tag count and secondarily by lastActivity descending;
in particular room A (2 matches) precedes room B (1 match) when their
lastActivity is equal. -/
theorem claim_interest_ranking :
    (∀ s interests, interests ≠ [] →
        (getChatRoomsByInterests s interests).Perm
          (((unionIds s interests).filterMap (getChatRoom s)).filter
            (fun r => r.isActive))
        ∧ (getChatRoomsByInterests s interests).Pairwise
            (fun a b => relLe interests a b = true)
        ∧ (unionIds s interests).Nodup)
    ∧ (getChatRoomsByInterests c5store ["gaming", "music"]).map ChatRoom.id
        = ["roomA", "roomB"] := by
  refine ⟨?_, by decide⟩
  intro s interests hq
  unfold getChatRoomsByInterests
  rw [if_neg hq]
  exact ⟨perm_sortLe _ _,
    pairwise_sortLe _ (relLe_total interests) (relLe_trans interests) _,
    nodup_unionIds s interests⟩

theorem claim_interest_ranking_witness :
    (getChatRoomsByInterests c5store ["gaming", "music"]).Pairwise
      (fun a b => relLe ["gaming", "music"] a b = true) :=
  (claim_interest_ranking.1 c5store ["gaming", "music"] (by decide)).2.1

/-! ## Claim C2 -/

theorem getMessages_none (s : Store) (chatRoomId : String) (limit : Nat) :
    getMessages s chatRoomId limit none
      = (sortLe leMsg (msgLog s chatRoomId)).reverse.take limit := rfl

theorem getMessages_some (s : Store) (chatRoomId : String) (limit b : Nat) :
    getMessages s chatRoomId limit (some b)
      = ((sortLe leMsg (msgLog s chatRoomId)).filter
          (fun m => m.timestamp < b)).reverse.take limit := rfl

theorem getLast_eq_some_decomp {α : Type} (a : α) :
    ∀ l : List α, l.getLast? = some a → ∃ l0, l = l0 ++ [a] := by
  intro l
  induction l with
  | nil => intro h; simp [List.getLast?] at h
  | cons x xs ih =>
    intro h
    cases xs with
    | nil =>
      simp only [List.getLast?_singleton, Option.some.injEq] at h
      exact ⟨[], by rw [h]; rfl⟩
    | cons y ys =>
      rw [List.getLast?_cons_cons] at h
      rcases ih h with ⟨l0, hl0⟩
      exact ⟨x :: l0, by rw [List.cons_append, ← hl0]⟩

/-- A room whose log was filled by two sends in the same millisecond
(timestamp 10) sitting exactly at the 50-message page boundary, one
older message (timestamp 5), and 49 newer messages. -/
def cexPagStore : Store :=
  let s1 := (createMessage emptyStore "room1" "u1" "alice" "old" 5 "s0").1
  let s2 := (createMessage s1 "room1" "u1" "alice" "tie1" 10 "zzz").1
  let s3 := (createMessage s2 "room1" "u1" "alice" "tie2" 10 "aaa").1
  (List.range 49).foldl
    (fun st i =>
      (createMessage st "room1" "u1" "alice" ("n" ++ toString i) (11 + i) "s").1)
    s3

def cexSkipped : Message := ⟨generateId 10 "aaa", "room1", "u1", "alice", "tie2", 10⟩

def cexOld : Message := ⟨generateId 5 "s0", "room1", "u1", "alice", "old", 5⟩

/-- Claim C2 counterexample: with two stored messages sharing the first
page's oldest timestamp (10), the second page obtained with
before = 10 skips the tied message cexSkipped entirely even though it
returns the strictly older message cexOld — the two pages are neither
contiguous nor gap-free, contrary to the claim's round-trip property
for arbitrary rooms. -/
theorem claim_pagination_counterexample :
    ((getMessages cexPagStore "room1" 50 none).getLast?).map Message.timestamp = some 10
    ∧ cexSkipped ∉ getMessages cexPagStore "room1" 50 none
    ∧ cexSkipped ∉ getMessages cexPagStore "room1" 50 (some 10)
    ∧ cexOld ∈ getMessages cexPagStore "room1" 50 (some 10)
    ∧ cexOld.timestamp < cexSkipped.timestamp := by
  exact ⟨by decide, by decide, by decide, by decide, by decide⟩

/-- Claim C2 (amended): getMessages returns messages newest-first; a
before cursor bounds results to strictly smaller timestamps; the request
layer caps the page size at 100 whatever limit is requested; and the
backward-pagination round trip (second page keyed by the oldest
timestamp of the first) is exact — first page followed by second page is
precisely the newest-first prefix of the log of length up to 100 —
whenever no two stored messages share a timestamp.  When timestamps
collide at the page boundary, messages tied with the cursor are skipped. -/
theorem claim_pagination :
    (∀ s chatRoomId limit b,
        ∀ m ∈ getMessages s chatRoomId limit (some b), m.timestamp < b)
    ∧ (∀ s chatRoomId limit before,
        (getMessages s chatRoomId limit before).Pairwise
          (fun a b => b.timestamp ≤ a.timestamp))
    ∧ (∀ limit, normalizedLimit limit ≤ 100)
    ∧ (∀ s chatRoomId limit before,
        (getMessagesEndpoint s chatRoomId limit before).length ≤ 100)
    ∧ (∀ s chatRoomId (mL : Message),
        ((msgLog s chatRoomId).map Message.timestamp).Nodup →
        (getMessages s chatRoomId 50 none).getLast? = some mL →
        (getMessages s chatRoomId 50 none
            ++ getMessages s chatRoomId 50 (some mL.timestamp)
          = ((sortLe leMsg (msgLog s chatRoomId)).reverse).take 100)
        ∧ ∀ m ∈ getMessages s chatRoomId 50 (some mL.timestamp),
            m ∉ getMessages s chatRoomId 50 none) := by
  refine ⟨?_, ?_, ?_, ?_, ?_⟩
  · intro s chatRoomId limit b m hm
    rw [getMessages_some] at hm
    have h1 := List.mem_of_mem_take hm
    have h2 := List.mem_reverse.mp h1
    have h3 := List.mem_filter.mp h2
    simpa using h3.2
  · intro s chatRoomId limit before
    have hp : (sortLe leMsg (msgLog s chatRoomId)).Pairwise (fun a b => leMsg a b = true) :=
      pairwise_sortLe leMsg leMsg_total leMsg_trans _
    have hle : (sortLe leMsg (msgLog s chatRoomId)).Pairwise
        (fun a b => a.timestamp ≤ b.timestamp) :=
      hp.imp (fun h => leMsg_timestamp_le h)
    cases before with
    | none =>
      rw [getMessages_none]
      exact List.Pairwise.sublist (List.take_sublist _ _) (List.pairwise_reverse.mpr hle)
    | some b =>
      rw [getMessages_some]
      exact List.Pairwise.sublist (List.take_sublist _ _)
        (List.pairwise_reverse.mpr (hle.filter _))
  · intro limit
    unfold normalizedLimit
    exact Nat.min_le_right _ _
  · intro s chatRoomId limit before
    have hlim : normalizedLimit limit ≤ 100 := by
      unfold normalizedLimit
      exact Nat.min_le_right _ _
    cases before with
    | none => exact le_trans (List.length_take_le _ _) hlim
    | some b => exact le_trans (List.length_take_le _ _) hlim
  · intro s chatRoomId mL hnodup hlast
    rw [getMessages_none] at hlast
    rw [getMessages_none, getMessages_some]
    have hp : (sortLe leMsg (msgLog s chatRoomId)).Pairwise (fun a b => leMsg a b = true) :=
      pairwise_sortLe leMsg leMsg_total leMsg_trans _
    set entries := sortLe leMsg (msgLog s chatRoomId) with hent
    have hperm : entries.Perm (msgLog s chatRoomId) := perm_sortLe _ _
    have hnodup2 : (entries.map Message.timestamp).Nodup :=
      ((hperm.map Message.timestamp).nodup_iff).mpr hnodup
    have hne : entries.Pairwise (fun a b => a.timestamp ≠ b.timestamp) :=
      List.pairwise_map.mp hnodup2
    have hle : entries.Pairwise (fun a b => a.timestamp ≤ b.timestamp) :=
      hp.imp (fun h => leMsg_timestamp_le h)
    have hstrict : entries.Pairwise (fun a b => a.timestamp < b.timestamp) :=
      (hle.and hne).imp (fun h => lt_of_le_of_ne h.1 h.2)
    have hdescpair : entries.reverse.Pairwise (fun a b => b.timestamp < a.timestamp) :=
      List.pairwise_reverse.mpr hstrict
    have hsplit : entries.reverse
        = entries.reverse.take 50 ++ entries.reverse.drop 50 :=
      (List.take_append_drop 50 entries.reverse).symm
    obtain ⟨hp1, hpB, hcross⟩ := List.pairwise_append.mp (hsplit ▸ hdescpair)
    obtain ⟨A0, hA0⟩ := getLast_eq_some_decomp mL _ hlast
    have hmL1 : mL ∈ entries.reverse.take 50 := by rw [hA0]; simp
    have hA0cross : ∀ a ∈ A0, mL.timestamp < a.timestamp := by
      have hparts := List.pairwise_append.mp (hA0 ▸ hp1)
      intro a ha
      exact hparts.2.2 a ha mL (List.mem_singleton_self mL)
    have hfilter1 : (entries.reverse.take 50).filter
        (fun m => m.timestamp < mL.timestamp) = [] := by
      rw [hA0]
      refine List.filter_eq_nil_iff.mpr ?_
      intro a ha
      rcases List.mem_append.mp ha with h | h
      · have := hA0cross a h
        simp only [decide_eq_true_eq]
        omega
      · have heq : a = mL := List.mem_singleton.mp h
        subst heq
        simp
    have hfilter2 : (entries.reverse.drop 50).filter
        (fun m => m.timestamp < mL.timestamp) = entries.reverse.drop 50 := by
      refine List.filter_eq_self.mpr ?_
      intro b hb
      have := hcross mL hmL1 b hb
      simp only [decide_eq_true_eq]
      omega
    have hfilterdesc : entries.reverse.filter (fun m => m.timestamp < mL.timestamp)
        = entries.reverse.drop 50 := by
      conv_lhs => rw [hsplit]
      rw [List.filter_append, hfilter1, hfilter2, List.nil_append]
    constructor
    · rw [← List.filter_reverse, hfilterdesc]
      rw [show (100 : Nat) = 50 + 50 from rfl, List.take_add]
    · intro m hm hmem1
      rw [← List.filter_reverse, hfilterdesc] at hm
      have hmB : m ∈ entries.reverse.drop 50 := List.mem_of_mem_take hm
      exact absurd (hcross m hmem1 m hmB) (lt_irrefl _)

/-- A room log holding 120 messages at pairwise distinct timestamps
(reachable only below the retention ceiling through the repository, but
getMessages is defined on any stored log). -/
def w2log : List Message :=
  (List.range 120).map
    (fun i => ⟨generateId (1000 + i) "w", "room1", "u1", "alice",
      "w" ++ toString i, 1000 + i⟩)

def w2store : Store := ⟨[], [], [], [("room1", w2log)]⟩

def w2cursor : Message :=
  ⟨generateId 1070 "w", "room1", "u1", "alice", "w70", 1070⟩

theorem claim_pagination_witness :
    ((msgLog w2store "room1").map Message.timestamp).Nodup
    ∧ (getMessages w2store "room1" 50 none).getLast? = some w2cursor
    ∧ getMessages w2store "room1" 50 none
        ++ getMessages w2store "room1" 50 (some w2cursor.timestamp)
      = ((sortLe leMsg (msgLog w2store "room1")).reverse).take 100 :=
  ⟨by decide, by decide,
   (claim_pagination.2.2.2.2 w2store "room1" w2cursor (by decide) (by decide)).1⟩

end Campfire
